import Mathlib

/-!
Shallow embedding of the Let It Ride EV calculator core
(`src/src/App.jsx`): the deck model, the 5-card hand classifier
`classify5`, the paytable, and the enumeration engine `computeEV`.

A card code `"<rank><suit>"` is embedded as the pair of its two
characters.  JavaScript floats produced by `evSum / total` and
`counts[c] / total` are embedded as rationals; every integer involved is
far below 2^53, and the enumeration only adds integers, so the rational
values coincide with the float values except for the final divisions,
whose exactness claims are stated on the rationals.
-/

namespace LetItRide

/-- A card, i.e. the two characters of its code: (rank, suit). -/
abbrev Card := Char × Char

/-- `const RANKS = ["2","3","4","5","6","7","8","9","T","J","Q","K","A"]`. -/
def RANKS : List Char := ['2', '3', '4', '5', '6', '7', '8', '9', 'T', 'J', 'Q', 'K', 'A']

/-- `const SUITS = ["c","d","h","s"]`. -/
def SUITS : List Char := ['c', 'd', 'h', 's']

/-- `const DECK = RANKS.flatMap(r => SUITS.map(s => r + s))`. -/
def DECK : List Card := RANKS.flatMap (fun r => SUITS.map (fun s => (r, s)))

/-- The ten hand categories. -/
inductive Category where
  | royal_flush
  | straight_flush
  | four_kind
  | full_house
  | flush
  | straight
  | three_kind
  | two_pair
  | pair_10_or_better
  | nothing
deriving DecidableEq

/-- `const PAYTABLE = {...}`: net payout per unit wager for each category. -/
def PAYTABLE : Category → Int
  | .royal_flush => 1000
  | .straight_flush => 200
  | .four_kind => 50
  | .full_house => 11
  | .flush => 8
  | .straight => 5
  | .three_kind => 3
  | .two_pair => 2
  | .pair_10_or_better => 1
  | .nothing => -1

/-- `const CATEGORIES = [...]`: the categories in display order. -/
def CATEGORIES : List Category :=
  [.royal_flush, .straight_flush, .four_kind, .full_house, .flush,
   .straight, .three_kind, .two_pair, .pair_10_or_better, .nothing]

/-- `function rankIndex(r) { return RANKS.indexOf(r); }` (−1 when absent). -/
def rankIndex (r : Char) : Int :=
  match RANKS.findIdx? (fun x => x == r) with
  | some i => (i : Int)
  | none => -1

/-- `cards.map(c => c[0])`: the rank characters of a hand. -/
def ranksOf (cards : List Card) : List Char := cards.map Prod.fst

/-- `cards.map(c => c[1])`: the suit characters of a hand. -/
def suitsOf (cards : List Card) : List Char := cards.map Prod.snd

/-- One step of `ranks.forEach(r => counts[r] = (counts[r] || 0) + 1)`:
bump the histogram entry for `r`, inserting it at the end when new
(JavaScript object keys enumerate in insertion order). -/
def bump (acc : List (Char × Nat)) (r : Char) : List (Char × Nat) :=
  if acc.any (fun p => p.1 == r) then
    acc.map (fun p => if p.1 == r then (p.1, p.2 + 1) else p)
  else acc ++ [(r, 1)]

/-- The rank histogram `counts` as an association list in key-insertion
order. -/
def countsList (ranks : List Char) : List (Char × Nat) := ranks.foldl bump []

/-- `.sort((a,b)=>b-a)`: numeric sort, descending. -/
def sortDesc (l : List Nat) : List Nat := l.insertionSort (fun a b => b ≤ a)

/-- `.sort((a,b)=>a-b)`: numeric sort, ascending. -/
def sortAsc (l : List Int) : List Int := l.insertionSort (fun a b => a ≤ b)

/-- `const freqs = Object.values(counts).sort((a,b)=>b-a)`. -/
def freqsOf (cards : List Card) : List Nat :=
  sortDesc ((countsList (ranksOf cards)).map Prod.snd)

/-- `const isFlush = new Set(suits).size === 1`. -/
def isFlushOf (cards : List Card) : Bool := (suitsOf cards).dedup.length == 1

/-- `const vals = ranks.map(rankIndex).sort((a,b)=>a-b)`. -/
def valsOf (cards : List Card) : List Int := sortAsc ((ranksOf cards).map rankIndex)

/-- The two-branch straight test of `classify5` (wheel first, then the
`max − min = 4` with five distinct values test). -/
def isStraightOf (cards : List Card) : Bool :=
  let vals := valsOf cards
  if vals.length == 5 && vals.getD 0 99 == 0 && vals.getD 1 99 == 1 &&
      vals.getD 2 99 == 2 && vals.getD 3 99 == 3 && vals.getD 4 99 == 12 then
    true
  else
    vals.length == 5 && (vals.getD 4 99 - vals.getD 0 99 == 4) && vals.dedup.length == 5

/-- The royal-set test inside the straight-flush branch:
`ranksSet.size === 5 && has('T') && has('J') && has('Q') && has('K') && has('A')`. -/
def isRoyalSetOf (cards : List Card) : Bool :=
  let ranksSet := (ranksOf cards).dedup
  ranksSet.length == 5 && ranksSet.contains 'T' && ranksSet.contains 'J' &&
    ranksSet.contains 'Q' && ranksSet.contains 'K' && ranksSet.contains 'A'

/-- The `freqs[0] === 2` branch: find the rank occurring twice and test
it against `["T","J","Q","K","A"]`. -/
def pairBranchOf (cards : List Card) : Category :=
  match (countsList (ranksOf cards)).find? (fun p => p.2 == 2) with
  | some p => if ['T', 'J', 'Q', 'K', 'A'].contains p.1 then .pair_10_or_better else .nothing
  | none => .nothing

/-- `function classify5(cards)`: the priority ladder. -/
def classify5 (cards : List Card) : Category :=
  let freqs := freqsOf cards
  if isStraightOf cards && isFlushOf cards then
    if isRoyalSetOf cards then .royal_flush else .straight_flush
  else if freqs.getD 0 0 == 4 then .four_kind
  else if freqs.getD 0 0 == 3 && freqs.getD 1 0 == 2 then .full_house
  else if isFlushOf cards then .flush
  else if isStraightOf cards then .straight
  else if freqs.getD 0 0 == 3 then .three_kind
  else if freqs.getD 0 0 == 2 && freqs.getD 1 0 == 2 then .two_pair
  else if freqs.getD 0 0 == 2 then pairBranchOf cards
  else .nothing

/-- The loop accumulator of `computeEV`: category counters, the payout
sum, and the per-candidate breakdown list. -/
structure EnumAcc where
  counts : Category → Nat
  evSum : Int
  breakdown : List (Card × Category × Int)

/-- The result object `{ev, probs, counts, total, breakdown}`. -/
structure EnumerationResult where
  ev : ℚ
  probs : Category → ℚ
  counts : Category → Nat
  total : Nat
  breakdown : List (Card × Category × Int)

/-- `setResult(...)` receives either an `{error}` object or a result. -/
inductive EvalResult where
  | error (msg : String)
  | ok (res : EnumerationResult)
deriving Inhabited

/-- The incomplete-selection error message. -/
def incompleteMsg : String := "Please select all 3 hole cards and the shown community card."

/-- The duplicate-card error message. -/
def duplicateMsg : String := "Duplicate card detected. Please choose distinct cards."

/-- One iteration of `for (const finalCard of remaining)`: classify
`[cardA, cardB, cardC, board, finalCard]`, bump its counter, add its
payout, append the breakdown record. -/
def enumStep (cardA cardB cardC board : Card) (acc : EnumAcc) (finalCard : Card) : EnumAcc :=
  let cat := classify5 [cardA, cardB, cardC, board, finalCard]
  let payout := PAYTABLE cat
  ⟨fun k => if k = cat then acc.counts k + 1 else acc.counts k,
   acc.evSum + payout,
   acc.breakdown ++ [(finalCard, cat, payout)]⟩

/-- `function computeEV()`: validate the four selections, enumerate the
48 remaining candidates, and aggregate counts, probabilities and EV.
An unselected card (JavaScript `''`) is embedded as `none`. -/
def computeEV (cardA cardB cardC board : Option Card) : EvalResult :=
  match cardA, cardB, cardC, board with
  | some a, some b, some c, some d =>
    let known : List Card := [a, b, c, d]
    if known.dedup.length < 4 then .error duplicateMsg
    else
      let remaining := DECK.filter (fun x => decide (x ∉ known))
      let acc := remaining.foldl (enumStep a b c d) ⟨fun _ => 0, 0, []⟩
      let total := remaining.length
      .ok ⟨(acc.evSum : ℚ) / (total : ℚ),
           fun k => (acc.counts k : ℚ) / (total : ℚ),
           acc.counts,
           total,
           acc.breakdown⟩
  | _, _, _, _ => .error incompleteMsg

/-- Lookup in the histogram association list (0 when the key is absent),
i.e. the JavaScript `counts[r] || 0`. -/
def lookupCnt (acc : List (Char × Nat)) (r : Char) : Nat :=
  ((acc.find? (fun p => p.1 == r)).map Prod.snd).getD 0

/-- The candidate pool `remaining = DECK.filter(c => !known.has(c))`. -/
def poolOf (a b c d : Card) : List Card :=
  DECK.filter (fun x => decide (x ∉ ([a, b, c, d] : List Card)))

/-- The final category of one candidate completion. -/
def cat5 (a b c d f : Card) : Category := classify5 [a, b, c, d, f]

/-! ### Generic list helpers -/

lemma countP_or_split {α : Type} (p q : α → Bool) (l : List α)
    (h : ∀ a ∈ l, ¬(p a = true ∧ q a = true)) :
    l.countP (fun a => p a || q a) = l.countP p + l.countP q := by
  induction l with
  | nil => simp
  | cons x xs ih =>
    simp only [List.countP_cons]
    rw [ih (fun a ha => h a (List.mem_cons_of_mem _ ha))]
    have hx := h x (List.mem_cons_self x xs)
    by_cases hp : p x = true <;> by_cases hq : q x = true <;>
      simp [hp, hq] at hx ⊢ <;> omega

lemma countP_eq_one_of_nodup_mem {α : Type} [DecidableEq α] {l : List α} (hl : l.Nodup)
    {k : α} (hk : k ∈ l) : l.countP (fun c => decide (c = k)) = 1 := by
  induction l with
  | nil => simp at hk
  | cons x xs ih =>
    rw [List.countP_cons]
    rcases List.mem_cons.mp hk with rfl | hk'
    · have hz : xs.countP (fun c => decide (c = k)) = 0 := by
        rw [List.countP_eq_zero]
        intro a ha hax
        exact (List.nodup_cons.mp hl).1 ((by simpa using hax : a = k) ▸ ha)
      simp [hz]
    · have hxk : ¬(x = k) := by
        intro he
        exact (List.nodup_cons.mp hl).1 (he ▸ hk')
      rw [ih (List.nodup_cons.mp hl).2 hk']
      simp [hxk]

lemma card_countP_mem_eq_length (l ks : List Card) (hl : l.Nodup)
    (hks : ks.Nodup) (hsub : ∀ k ∈ ks, k ∈ l) :
    l.countP (fun c => decide (c ∈ ks)) = ks.length := by
  induction ks with
  | nil => simp
  | cons k ks ih =>
    have hkl : k ∈ l := hsub k (List.mem_cons_self k ks)
    have hsplit : (fun c : Card => decide (c ∈ k :: ks)) =
        fun c => (decide (c = k) || decide (c ∈ ks)) := by
      funext c; simp [List.mem_cons]
    rw [hsplit, countP_or_split]
    · have h1 : l.countP (fun c => decide (c = k)) = 1 :=
        countP_eq_one_of_nodup_mem hl hkl
      have h2 : l.countP (fun c => decide (c ∈ ks)) = ks.length :=
        ih (List.Nodup.of_cons hks) (fun a ha => hsub a (List.mem_cons_of_mem _ ha))
      simp only [h1, h2, List.length_cons]
      omega
    · intro a _ hc
      rcases hc with ⟨h1, h2⟩
      have ha1 : a = k := by simpa using h1
      have ha2 : a ∈ ks := by simpa using h2
      exact (List.nodup_cons.mp hks).1 (ha1 ▸ ha2)

lemma card_length_filter_not_mem (l ks : List Card) (hl : l.Nodup)
    (hks : ks.Nodup) (hsub : ∀ k ∈ ks, k ∈ l) :
    (l.filter (fun x => decide (x ∉ ks))).length = l.length - ks.length := by
  have hlen : l.countP (fun x => decide (x ∈ ks)) +
      l.countP (fun x => !decide (x ∈ ks)) = l.length := by
    simpa using (List.length_eq_countP_add_countP (fun x => decide (x ∈ ks)) l).symm
  have hmem := card_countP_mem_eq_length l ks hl hks hsub
  have hnot : (fun x : Card => decide (x ∉ ks)) = fun x => !decide (x ∈ ks) := by
    funext x; by_cases hx : x ∈ ks <;> simp [hx]
  rw [← List.countP_eq_length_filter, hnot]
  omega

lemma dedup_length_one_iff {α : Type} [DecidableEq α] (l : List α) (hne : l ≠ []) :
    l.dedup.length = 1 ↔ ∀ a ∈ l, ∀ b ∈ l, a = b := by
  constructor
  · intro h a ha b hb
    obtain ⟨x, hx⟩ := List.length_eq_one.mp h
    have ha' : a ∈ l.dedup := List.mem_dedup.mpr ha
    have hb' : b ∈ l.dedup := List.mem_dedup.mpr hb
    rw [hx] at ha' hb'
    simp at ha' hb'
    rw [ha', hb']
  · intro h
    obtain ⟨c, cs, rfl⟩ := List.exists_cons_of_ne_nil hne
    have hrep : c :: cs = List.replicate (c :: cs).length c := by
      rw [List.eq_replicate_iff]
      exact ⟨rfl, fun b hb => h b hb c (List.mem_cons_self c cs)⟩
    rw [hrep]
    have : ∀ n : Nat, 0 < n → (List.replicate n c).dedup.length = 1 := by
      intro n hn
      induction n with
      | zero => omega
      | succ m ih =>
        rcases Nat.eq_zero_or_pos m with hm | hm
        · subst hm; simp
        · have hmem : c ∈ List.replicate m c := List.mem_replicate.mpr ⟨by omega, rfl⟩
          rw [List.replicate_succ, List.dedup_cons_of_mem hmem]
          exact ih hm
    exact this _ (by simp)

lemma dedup_length_eq_iff_nodup {α : Type} [DecidableEq α] (l : List α) :
    l.dedup.length = l.length ↔ l.Nodup := by
  constructor
  · intro h
    have := List.Sublist.eq_of_length (List.dedup_sublist l) h
    rw [← this]
    exact List.nodup_dedup l
  · intro h
    rw [List.dedup_eq_self.mpr h]

/-! ### Characterisation of the rank histogram `countsList` -/

lemma keys_bump (acc : List (Char × Nat)) (r : Char) :
    (bump acc r).map Prod.fst =
      if r ∈ acc.map Prod.fst then acc.map Prod.fst else acc.map Prod.fst ++ [r] := by
  unfold bump
  by_cases h : r ∈ acc.map Prod.fst
  · have hany : acc.any (fun p => p.1 == r) = true := by
      rw [List.any_eq_true]
      obtain ⟨p, hp, hp1⟩ := List.mem_map.mp h
      exact ⟨p, hp, by simp [hp1]⟩
    rw [if_pos hany, if_pos h, List.map_map]
    apply List.map_congr_left
    intro p _
    by_cases hp : p.1 = r <;> simp [hp]
  · have hany : acc.any (fun p => p.1 == r) = false := by
      rw [List.any_eq_false]
      intro p hp
      simp only [beq_iff_eq]
      intro hpr
      exact h (List.mem_map.mpr ⟨p, hp, hpr⟩)
    rw [hany, if_neg h]
    simp

lemma mem_keys_bump (acc : List (Char × Nat)) (r r' : Char) :
    r' ∈ (bump acc r).map Prod.fst ↔ r' ∈ acc.map Prod.fst ∨ r' = r := by
  rw [keys_bump]
  by_cases h : r ∈ acc.map Prod.fst
  · rw [if_pos h]
    constructor
    · exact Or.inl
    · rintro (hx | rfl)
      · exact hx
      · exact h
  · rw [if_neg h]
    simp

lemma nodup_keys_bump (acc : List (Char × Nat)) (r : Char)
    (h : (acc.map Prod.fst).Nodup) : ((bump acc r).map Prod.fst).Nodup := by
  rw [keys_bump]
  by_cases hm : r ∈ acc.map Prod.fst
  · rwa [if_pos hm]
  · rw [if_neg hm, List.nodup_append]
    exact ⟨h, List.nodup_singleton r, by simpa [List.disjoint_singleton] using hm⟩

lemma lookupCnt_bump (acc : List (Char × Nat)) (r r' : Char) :
    lookupCnt (bump acc r) r' =
      if r' = r then lookupCnt acc r' + 1 else lookupCnt acc r' := by
  unfold bump lookupCnt
  by_cases hany : acc.any (fun p => p.1 == r) = true
  · rw [if_pos hany, List.find?_map]
    have hcomp : ((fun p : Char × Nat => p.1 == r') ∘
        fun p : Char × Nat => if p.1 == r then (p.1, p.2 + 1) else p) =
        fun p : Char × Nat => p.1 == r' := by
      funext p
      by_cases hp : p.1 = r <;> simp [hp]
    rw [hcomp]
    rcases hfq : acc.find? (fun q => q.1 == r') with _ | q
    · by_cases hrr : r' = r
      · subst hrr
        obtain ⟨p, hp, hpr⟩ := List.any_eq_true.mp hany
        have hnp := List.find?_eq_none.mp hfq p hp
        simp only [beq_iff_eq] at hpr hnp
        exact absurd hpr hnp
      · simp [hfq, hrr]
    · have hq1 : q.1 = r' := by simpa using List.find?_some hfq
      by_cases hrr : r' = r
      · subst hrr
        simp [hfq, hq1]
      · simp [hfq, hq1, hrr]
  · rw [if_neg hany, List.find?_append]
    have hnone : acc.find? (fun p => p.1 == r) = none := by
      rw [List.find?_eq_none]
      intro p hp hbeq
      exact hany (List.any_eq_true.mpr ⟨p, hp, hbeq⟩)
    by_cases hrr : r' = r
    · subst hrr
      simp [hnone]
    · rcases hfq : acc.find? (fun p => p.1 == r') with _ | q
      · simp [hfq, hrr, Ne.symm hrr]
      · simp [hfq, hrr]

lemma lookupCnt_foldl (rs : List Char) :
    ∀ acc r, lookupCnt (rs.foldl bump acc) r = lookupCnt acc r + rs.count r := by
  induction rs with
  | nil => intro acc r; simp
  | cons x rs ih =>
    intro acc r
    rw [List.foldl_cons, ih, lookupCnt_bump, List.count_cons]
    by_cases h : r = x
    · rw [if_pos h, if_pos (by simp [h])]
      omega
    · rw [if_neg h, if_neg (by simpa using Ne.symm h)]
      omega

lemma mem_keys_foldl (rs : List Char) :
    ∀ acc r, r ∈ ((rs.foldl bump acc).map Prod.fst) ↔ r ∈ acc.map Prod.fst ∨ r ∈ rs := by
  induction rs with
  | nil => intro acc r; simp
  | cons x rs ih =>
    intro acc r
    rw [List.foldl_cons, ih, mem_keys_bump]
    simp [or_assoc, or_comm, or_left_comm]

lemma nodup_keys_foldl (rs : List Char) :
    ∀ acc, (acc.map Prod.fst).Nodup → ((rs.foldl bump acc).map Prod.fst).Nodup := by
  induction rs with
  | nil => intro acc h; exact h
  | cons x rs ih =>
    intro acc h
    exact ih _ (nodup_keys_bump acc x h)

lemma mem_assoc_iff (acc : List (Char × Nat)) (h : (acc.map Prod.fst).Nodup)
    (p : Char × Nat) :
    p ∈ acc ↔ p.1 ∈ acc.map Prod.fst ∧ p.2 = lookupCnt acc p.1 := by
  induction acc with
  | nil => simp
  | cons q acc ih =>
    rw [List.map_cons] at h
    have hq1 : q.1 ∉ acc.map Prod.fst := (List.nodup_cons.mp h).1
    have hacc : (acc.map Prod.fst).Nodup := (List.nodup_cons.mp h).2
    constructor
    · intro hp
      rcases List.mem_cons.mp hp with rfl | hp'
      · refine ⟨by simp, ?_⟩
        unfold lookupCnt
        rw [List.find?_cons_of_pos _ (by simp)]
        rfl
      · have hne : p.1 ≠ q.1 := by
          intro he
          exact hq1 (he ▸ List.mem_map.mpr ⟨p, hp', rfl⟩)
        have := (ih hacc).mp hp'
        refine ⟨by simp [this.1], ?_⟩
        unfold lookupCnt
        rw [List.find?_cons_of_neg _ (by simpa using Ne.symm hne)]
        exact this.2
    · rintro ⟨hmem, hval⟩
      rw [List.map_cons, List.mem_cons] at hmem
      rcases hmem with he | hmem'
      · have hpq : p = q := by
          unfold lookupCnt at hval
          rw [List.find?_cons_of_pos _ (by simp [he])] at hval
          have h2 : p.2 = q.2 := by simpa using hval
          have : (p.1, p.2) = (q.1, q.2) := by rw [he, h2]
          simpa using this
        rw [hpq]
        exact List.mem_cons_self q acc
      · right
        have hne : p.1 ≠ q.1 := by
          intro he
          exact hq1 (he ▸ hmem')
        unfold lookupCnt at hval
        rw [List.find?_cons_of_neg _ (by simpa using Ne.symm hne)] at hval
        exact (ih hacc).mpr ⟨hmem', hval⟩

lemma mem_countsList (l : List Char) (p : Char × Nat) :
    p ∈ countsList l ↔ p.1 ∈ l ∧ p.2 = l.count p.1 := by
  unfold countsList
  have hnod : ((l.foldl bump []).map Prod.fst).Nodup := nodup_keys_foldl l [] (by simp)
  rw [mem_assoc_iff _ hnod, mem_keys_foldl]
  have hlook : lookupCnt (l.foldl bump []) p.1 = l.count p.1 := by
    rw [lookupCnt_foldl]
    simp [lookupCnt]
  simp [hlook]

lemma nodup_countsList (l : List Char) : (countsList l).Nodup :=
  (nodup_keys_foldl l [] (by simp)).of_map

lemma countsList_perm (l : List Char) :
    (countsList l).Perm (l.dedup.map (fun r => (r, l.count r))) := by
  have hinj : Function.Injective (fun r : Char => (r, l.count r)) := by
    intro a b hab
    simpa using congrArg Prod.fst hab
  rw [List.perm_ext_iff_of_nodup (nodup_countsList l)
    ((List.nodup_dedup l).map hinj)]
  intro p
  rw [mem_countsList, List.mem_map]
  constructor
  · rintro ⟨hmem, hval⟩
    exact ⟨p.1, List.mem_dedup.mpr hmem, by simp [← hval]⟩
  · rintro ⟨r, hr, rfl⟩
    exact ⟨List.mem_dedup.mp hr, rfl⟩

lemma freqs_perm (l : List Char) :
    ((countsList l).map Prod.snd).Perm (l.dedup.map (fun r => l.count r)) := by
  have := (countsList_perm l).map Prod.snd
  rwa [List.map_map] at this

/-! ### Sorting helpers -/

lemma sortDesc_eq_of_perm {l m : List Nat} (hp : l.Perm m)
    (hs : m.Sorted (fun a b => b ≤ a)) : sortDesc l = m := by
  haveI h1 : IsTotal Nat (fun a b => b ≤ a) := ⟨fun a b => le_total b a⟩
  haveI h2 : IsTrans Nat (fun a b => b ≤ a) := ⟨fun a b c hab hbc => le_trans hbc hab⟩
  haveI h3 : IsAntisymm Nat (fun a b => b ≤ a) := ⟨fun a b hab hba => le_antisymm hba hab⟩
  exact List.eq_of_perm_of_sorted ((List.perm_insertionSort _ l).trans hp)
    (List.sorted_insertionSort _ l) hs

lemma sortAsc_eq_of_perm {l m : List Int} (hp : l.Perm m)
    (hs : m.Sorted (fun a b => a ≤ b)) : sortAsc l = m := by
  haveI h1 : IsTotal Int (fun a b => a ≤ b) := ⟨fun a b => le_total a b⟩
  haveI h2 : IsTrans Int (fun a b => a ≤ b) := ⟨fun a b c hab hbc => le_trans hab hbc⟩
  haveI h3 : IsAntisymm Int (fun a b => a ≤ b) := ⟨fun a b hab hba => le_antisymm hab hba⟩
  exact List.eq_of_perm_of_sorted ((List.perm_insertionSort _ l).trans hp)
    (List.sorted_insertionSort _ l) hs

/-! ### Category list facts -/

lemma mem_CATEGORIES (k : Category) : k ∈ CATEGORIES := by
  cases k <;> simp [CATEGORIES]

/-! ### Fold lemmas for the enumeration loop -/

lemma foldl_enumStep_counts (a b c d : Card) (pool : List Card) :
    ∀ (acc : EnumAcc) (k : Category),
      (pool.foldl (enumStep a b c d) acc).counts k =
        acc.counts k + pool.countP (fun f => decide (classify5 [a, b, c, d, f] = k)) := by
  induction pool with
  | nil => intro acc k; simp
  | cons x pool ih =>
    intro acc k
    rw [List.foldl_cons, ih, List.countP_cons]
    unfold enumStep
    by_cases hk : k = classify5 [a, b, c, d, x]
    · simp [hk]
      omega
    · simp [hk, Ne.symm hk]

lemma foldl_enumStep_evSum (a b c d : Card) (pool : List Card) :
    ∀ (acc : EnumAcc),
      (pool.foldl (enumStep a b c d) acc).evSum =
        acc.evSum + (pool.map (fun f => PAYTABLE (classify5 [a, b, c, d, f]))).sum := by
  induction pool with
  | nil => intro acc; simp
  | cons x pool ih =>
    intro acc
    rw [List.foldl_cons, ih]
    unfold enumStep
    simp
    omega

lemma foldl_enumStep_breakdown (a b c d : Card) (pool : List Card) :
    ∀ (acc : EnumAcc),
      (pool.foldl (enumStep a b c d) acc).breakdown =
        acc.breakdown ++ pool.map (fun f =>
          (f, classify5 [a, b, c, d, f], PAYTABLE (classify5 [a, b, c, d, f]))) := by
  induction pool with
  | nil => intro acc; simp
  | cons x pool ih =>
    intro acc
    rw [List.foldl_cons, ih]
    unfold enumStep
    simp

lemma list_sum_map_add {α β : Type} [AddCommMonoid β] (l : List α) (f g : α → β) :
    (l.map (fun x => f x + g x)).sum = (l.map f).sum + (l.map g).sum := by
  induction l with
  | nil => simp
  | cons x l ih =>
    simp only [List.map_cons, List.sum_cons, ih]
    exact add_add_add_comm (f x) (g x) _ _

lemma catSum_indicator {β : Type} [AddCommMonoid β] (k : Category) (w : Category → β) :
    (CATEGORIES.map (fun c => if k = c then w c else 0)).sum = w k := by
  cases k <;> simp [CATEGORIES]

lemma sum_counts_mul_payout {α : Type} (pool : List α) (v : α → Category) :
    (CATEGORIES.map (fun k =>
      (pool.countP (fun f => decide (v f = k)) : Int) * PAYTABLE k)).sum =
      (pool.map (fun f => PAYTABLE (v f))).sum := by
  induction pool with
  | nil => simp
  | cons x pool ih =>
    simp only [List.countP_cons, List.map_cons, List.sum_cons]
    have hsplit : (fun k : Category =>
        ((pool.countP (fun f => decide (v f = k)) + if decide (v x = k) then 1 else 0 : Nat) : Int)
          * PAYTABLE k) =
        fun k : Category =>
          (pool.countP (fun f => decide (v f = k)) : Int) * PAYTABLE k +
          (if v x = k then PAYTABLE k else 0) := by
      funext k
      by_cases hk : v x = k <;> simp [hk] <;> ring
    rw [hsplit, list_sum_map_add, ih, catSum_indicator]
    omega

lemma sum_counts_eq_length {α : Type} (pool : List α) (v : α → Category) :
    (CATEGORIES.map (fun k => pool.countP (fun f => decide (v f = k)))).sum = pool.length := by
  induction pool with
  | nil => simp
  | cons x pool ih =>
    simp only [List.countP_cons, List.length_cons]
    have hsplit : (fun k : Category =>
        pool.countP (fun f => decide (v f = k)) + if decide (v x = k) then 1 else 0) =
        fun k : Category =>
          pool.countP (fun f => decide (v f = k)) + (if v x = k then 1 else 0) := by
      funext k
      by_cases hk : v x = k <;> simp [hk]
    rw [hsplit, list_sum_map_add, ih, catSum_indicator]

/-! ### Unfolding `computeEV` on valid input -/

lemma DECK_nodup : DECK.Nodup := by decide

lemma DECK_length : DECK.length = 52 := by decide

lemma poolOf_length (a b c d : Card) (hnd : ([a, b, c, d] : List Card).Nodup)
    (ha : a ∈ DECK) (hb : b ∈ DECK) (hc : c ∈ DECK) (hd : d ∈ DECK) :
    (poolOf a b c d).length = 48 := by
  have hsub : ∀ k ∈ ([a, b, c, d] : List Card), k ∈ DECK := by
    intro k hk
    rcases List.mem_cons.mp hk with rfl | hk
    · exact ha
    rcases List.mem_cons.mp hk with rfl | hk
    · exact hb
    rcases List.mem_cons.mp hk with rfl | hk
    · exact hc
    rcases List.mem_cons.mp hk with rfl | hk
    · exact hd
    · simp at hk
  have hlen := card_length_filter_not_mem DECK [a, b, c, d] DECK_nodup hnd hsub
  have h48 : DECK.length - ([a, b, c, d] : List Card).length = 48 := by
    rw [DECK_length]
    rfl
  exact hlen.trans h48

lemma computeEV_eq_ok (a b c d : Card) (hnd : ([a, b, c, d] : List Card).Nodup) :
    computeEV (some a) (some b) (some c) (some d) = .ok
      ⟨(((poolOf a b c d).map (fun f => PAYTABLE (cat5 a b c d f))).sum : ℚ) /
          ((poolOf a b c d).length : ℚ),
        fun k => ((poolOf a b c d).countP (fun f => decide (cat5 a b c d f = k)) : ℚ) /
          ((poolOf a b c d).length : ℚ),
        fun k => (poolOf a b c d).countP (fun f => decide (cat5 a b c d f = k)),
        (poolOf a b c d).length,
        (poolOf a b c d).map (fun f => (f, cat5 a b c d f, PAYTABLE (cat5 a b c d f)))⟩ := by
  have hdedup : ([a, b, c, d] : List Card).dedup.length = 4 := by
    rw [List.dedup_eq_self.mpr hnd]
    rfl
  unfold computeEV
  dsimp only
  rw [if_neg (by omega)]
  have hcounts := foldl_enumStep_counts a b c d
    (DECK.filter (fun x => decide (x ∉ ([a, b, c, d] : List Card)))) ⟨fun _ => 0, 0, []⟩
  have hev := foldl_enumStep_evSum a b c d
    (DECK.filter (fun x => decide (x ∉ ([a, b, c, d] : List Card)))) ⟨fun _ => 0, 0, []⟩
  have hbrk := foldl_enumStep_breakdown a b c d
    (DECK.filter (fun x => decide (x ∉ ([a, b, c, d] : List Card)))) ⟨fun _ => 0, 0, []⟩
  simp only [EvalResult.ok.injEq, EnumerationResult.mk.injEq]
  refine ⟨?_, ?_, ?_, rfl, ?_⟩
  · rw [hev]
    simp [cat5, poolOf]
  · funext k
    rw [hcounts k]
    simp [cat5, poolOf]
  · funext k
    rw [hcounts k]
    simp [cat5, poolOf]
  · rw [hbrk]
    simp [cat5, poolOf]

/-! ### Validation helpers -/

lemma computeEV_none_error (a b c d : Option Card)
    (h : a = none ∨ b = none ∨ c = none ∨ d = none) :
    computeEV a b c d = .error incompleteMsg := by
  cases a <;> cases b <;> cases c <;> cases d <;>
    first
      | rfl
      | (rcases h with h | h | h | h <;> exact Option.noConfusion h)

lemma computeEV_dup_error (a b c d : Card) (hdup : ¬([a, b, c, d] : List Card).Nodup) :
    computeEV (some a) (some b) (some c) (some d) = .error duplicateMsg := by
  have hlt : ([a, b, c, d] : List Card).dedup.length < 4 := by
    have hle : ([a, b, c, d] : List Card).dedup.length ≤ 4 := by
      simpa using (List.dedup_sublist ([a, b, c, d] : List Card)).length_le
    have hne : ([a, b, c, d] : List Card).dedup.length ≠ 4 := by
      intro he
      exact hdup ((dedup_length_eq_iff_nodup ([a, b, c, d] : List Card)).mp (by simpa using he))
    omega
  unfold computeEV
  dsimp only
  rw [if_pos hlt]

lemma msgs_ne : incompleteMsg ≠ duplicateMsg := by decide

/-! ### Classifier-level characterisations -/

lemma isFlush_iff (cards : List Card) (hne : cards ≠ []) :
    isFlushOf cards = true ↔ ∀ x ∈ cards, ∀ y ∈ cards, x.2 = y.2 := by
  unfold isFlushOf suitsOf
  rw [beq_iff_eq, dedup_length_one_iff _ (by simpa using hne)]
  constructor
  · intro h x hx y hy
    exact h x.2 (List.mem_map.mpr ⟨x, hx, rfl⟩) y.2 (List.mem_map.mpr ⟨y, hy, rfl⟩)
  · intro h a ha b hb
    obtain ⟨x, hx, rfl⟩ := List.mem_map.mp ha
    obtain ⟨y, hy, rfl⟩ := List.mem_map.mp hb
    exact h x hx y hy

lemma isRoyalSet_iff (cards : List Card) :
    isRoyalSetOf cards = true ↔
      (ranksOf cards).toFinset = ({'T', 'J', 'Q', 'K', 'A'} : Finset Char) := by
  unfold isRoyalSetOf
  simp only [Bool.and_eq_true, beq_iff_eq, List.elem_eq_mem, decide_eq_true_eq,
    List.mem_dedup]
  constructor
  · rintro ⟨⟨⟨⟨⟨hlen, hT⟩, hJ⟩, hQ⟩, hK⟩, hA⟩
    have hsub : ({'T', 'J', 'Q', 'K', 'A'} : Finset Char) ⊆ (ranksOf cards).toFinset := by
      intro x hx
      rw [List.mem_toFinset]
      fin_cases hx <;> assumption
    have hcard : (ranksOf cards).toFinset.card ≤
        ({'T', 'J', 'Q', 'K', 'A'} : Finset Char).card := by
      rw [List.card_toFinset, hlen]
      decide
    exact (Finset.eq_of_subset_of_card_le hsub hcard).symm
  · intro h
    have hmem : ∀ x : Char, x ∈ (ranksOf cards) ↔
        x ∈ ({'T', 'J', 'Q', 'K', 'A'} : Finset Char) := by
      intro x
      rw [← h, List.mem_toFinset]
    have hlen : (ranksOf cards).dedup.length = 5 := by
      have hc := List.card_toFinset (ranksOf cards)
      rw [h] at hc
      rw [← hc]
      decide
    exact ⟨⟨⟨⟨⟨hlen, (hmem 'T').mpr (by decide)⟩, (hmem 'J').mpr (by decide)⟩,
      (hmem 'Q').mpr (by decide)⟩, (hmem 'K').mpr (by decide)⟩, (hmem 'A').mpr (by decide)⟩

lemma wheel_vals (cards : List Card)
    (hperm : (ranksOf cards).Perm ['A', '2', '3', '4', '5']) :
    valsOf cards = [0, 1, 2, 3, 12] := by
  unfold valsOf
  apply sortAsc_eq_of_perm
  · have h1 : ((ranksOf cards).map rankIndex).Perm
        ((['A', '2', '3', '4', '5'] : List Char).map rankIndex) := hperm.map _
    have h2 : (['A', '2', '3', '4', '5'] : List Char).map rankIndex = [12, 0, 1, 2, 3] := by
      decide
    rw [h2] at h1
    exact h1.trans (by decide)
  · decide

lemma wheel_isStraight (cards : List Card)
    (hperm : (ranksOf cards).Perm ['A', '2', '3', '4', '5']) :
    isStraightOf cards = true := by
  unfold isStraightOf
  dsimp only
  rw [wheel_vals cards hperm]
  decide

lemma wheel_not_royalset (cards : List Card)
    (hperm : (ranksOf cards).Perm ['A', '2', '3', '4', '5']) :
    isRoyalSetOf cards = false := by
  rw [Bool.eq_false_iff]
  intro h
  rw [isRoyalSet_iff] at h
  have hT : 'T' ∈ ranksOf cards := by
    rw [← List.mem_toFinset, h]
    decide
  exact absurd (hperm.mem_iff.mp hT) (by decide)

lemma nodup_freqs (cards : List Card) (h5 : cards.length = 5)
    (hnd : (ranksOf cards).Nodup) : freqsOf cards = [1, 1, 1, 1, 1] := by
  have hlen : (ranksOf cards).length = 5 := by
    simpa [ranksOf] using h5
  have hvals : (countsList (ranksOf cards)).map Prod.snd = List.replicate 5 1 := by
    have hperm := freqs_perm (ranksOf cards)
    rw [List.dedup_eq_self.mpr hnd] at hperm
    have hmapone : (ranksOf cards).map (fun r => (ranksOf cards).count r) =
        List.replicate 5 1 := by
      rw [List.map_congr_left (fun r hr => List.count_eq_one_of_mem hnd hr)]
      rw [List.map_const', hlen]
    rw [hmapone] at hperm
    rw [List.eq_replicate_iff]
    refine ⟨by simpa using hperm.length_eq, fun b hb => ?_⟩
    exact List.eq_of_mem_replicate (hperm.mem_iff.mp hb)
  unfold freqsOf
  rw [hvals]
  decide

lemma wheel_classify_parts (cards : List Card)
    (hperm : (ranksOf cards).Perm ['A', '2', '3', '4', '5']) :
    (isFlushOf cards = true → classify5 cards = Category.straight_flush) ∧
    (isFlushOf cards = false → classify5 cards = Category.straight) := by
  have h5 : cards.length = 5 := by
    have := hperm.length_eq
    simpa [ranksOf] using this
  have hnd : (ranksOf cards).Nodup := hperm.nodup_iff.mpr (by decide)
  have hstraight := wheel_isStraight cards hperm
  have hroyal := wheel_not_royalset cards hperm
  have hfreqs := nodup_freqs cards h5 hnd
  constructor
  · intro hf
    simp [classify5, hstraight, hf, hroyal]
  · intro hf
    simp [classify5, hstraight, hf, hroyal, hfreqs]

lemma pair_freqs (cards : List Card) (h5 : cards.length = 5) (p : Char)
    (hp2 : (ranksOf cards).count p = 2)
    (hmax : ∀ r ∈ ranksOf cards, (ranksOf cards).count r ≤ 2)
    (huniq : ∀ r ∈ ranksOf cards, (ranksOf cards).count r = 2 → r = p) :
    freqsOf cards = [2, 1, 1, 1] ∧
    ∀ q ∈ countsList (ranksOf cards), q.2 = 2 → q.1 = p := by
  have hlen : (ranksOf cards).length = 5 := by simpa [ranksOf] using h5
  have hpl : p ∈ ranksOf cards := List.count_pos_iff.mp (by omega)
  have hpd : p ∈ (ranksOf cards).dedup := List.mem_dedup.mpr hpl
  have dperm : (ranksOf cards).dedup.Perm (p :: (ranksOf cards).dedup.erase p) :=
    List.perm_cons_erase hpd
  have herase1 : ∀ r ∈ (ranksOf cards).dedup.erase p, (ranksOf cards).count r = 1 := by
    intro r hr
    have hrd := (List.Nodup.mem_erase_iff (List.nodup_dedup (ranksOf cards))).mp hr
    have hrl : r ∈ ranksOf cards := List.mem_dedup.mp hrd.2
    have h1 : 0 < (ranksOf cards).count r := List.count_pos_iff.mpr hrl
    have h2 : (ranksOf cards).count r ≤ 2 := hmax r hrl
    have h3 : (ranksOf cards).count r ≠ 2 := fun he => hrd.1 (huniq r hrl he)
    omega
  have hmap : ((ranksOf cards).dedup.erase p).map (fun r => (ranksOf cards).count r) =
      List.replicate ((ranksOf cards).dedup.erase p).length 1 := by
    rw [List.map_congr_left herase1, List.map_const']
  have hsum : ((ranksOf cards).dedup.map (fun r => (ranksOf cards).count r)).sum = 5 := by
    rw [List.sum_map_count_dedup_eq_length, hlen]
  have hsum2 : ((p :: (ranksOf cards).dedup.erase p).map
      (fun r => (ranksOf cards).count r)).sum = 5 := by
    rw [← (dperm.map (fun r => (ranksOf cards).count r)).sum_eq]
    exact hsum
  have herlen : ((ranksOf cards).dedup.erase p).length = 3 := by
    rw [List.map_cons, List.sum_cons, hp2, hmap, List.sum_replicate, smul_eq_mul] at hsum2
    omega
  have hvalsperm : ((countsList (ranksOf cards)).map Prod.snd).Perm [2, 1, 1, 1] := by
    refine (freqs_perm (ranksOf cards)).trans ?_
    refine ((dperm.map (fun r => (ranksOf cards).count r)).trans ?_)
    rw [List.map_cons, hp2, hmap, herlen]
    decide
  refine ⟨?_, ?_⟩
  · unfold freqsOf
    exact sortDesc_eq_of_perm hvalsperm (by decide)
  · intro q hq hq2
    have := (mem_countsList (ranksOf cards) q).mp hq
    exact huniq q.1 this.1 (by omega)

lemma ladder_ne_royal (cards : List Card)
    (h1 : ¬(isStraightOf cards && isFlushOf cards) = true) :
    classify5 cards ≠ Category.royal_flush := by
  unfold classify5
  dsimp only
  rw [if_neg h1]
  unfold pairBranchOf
  repeat' split
  all_goals simp

lemma classify5_eq_royal_iff (cards : List Card) :
    classify5 cards = Category.royal_flush ↔
      isStraightOf cards = true ∧ isFlushOf cards = true ∧ isRoyalSetOf cards = true := by
  by_cases h1 : (isStraightOf cards && isFlushOf cards) = true
  · obtain ⟨hs, hf⟩ : isStraightOf cards = true ∧ isFlushOf cards = true := by simpa using h1
    by_cases h2 : isRoyalSetOf cards = true
    · constructor
      · intro _
        exact ⟨hs, hf, h2⟩
      · intro _
        unfold classify5
        dsimp only
        rw [if_pos h1, if_pos h2]
    · constructor
      · intro h
        exfalso
        unfold classify5 at h
        dsimp only at h
        rw [if_pos h1, if_neg h2] at h
        exact Category.noConfusion h
      · rintro ⟨_, _, hroyal⟩
        exact absurd hroyal h2
  · constructor
    · intro h
      exact absurd h (ladder_ne_royal cards h1)
    · rintro ⟨hs, hf, _⟩
      exact absurd (by simp [hs, hf]) h1

/-! ### Rational-valued sum lemmas -/

lemma list_sum_intCast (l : List Int) : ((l.sum : Int) : ℚ) = (l.map (fun n : Int => (n : ℚ))).sum := by
  induction l with
  | nil => simp
  | cons x l ih => simp [ih]

lemma sum_counts_mul_weight (pool : List Card) (v : Card → Category) (w : Category → ℚ) :
    (CATEGORIES.map (fun k => (pool.countP (fun f => decide (v f = k)) : ℚ) * w k)).sum =
      (pool.map (fun f => w (v f))).sum := by
  induction pool with
  | nil => simp
  | cons x pool ih =>
    simp only [List.countP_cons, List.map_cons, List.sum_cons]
    have hsplit : (fun k : Category =>
        ((pool.countP (fun f => decide (v f = k)) + if decide (v x = k) then 1 else 0 : Nat) : ℚ)
          * w k) =
        fun k : Category =>
          (pool.countP (fun f => decide (v f = k)) : ℚ) * w k + (if v x = k then w k else 0) := by
      funext k
      by_cases hk : v x = k
      · simp [hk]
        push_cast
        ring
      · simp [hk]
    rw [hsplit, list_sum_map_add, ih, catSum_indicator]
    ring

/-! ### Claim theorems -/

/-- C1: the hand classifier is total and exclusive: for every set of 5
pairwise-distinct deck cards, `classify5` returns exactly one of the 10
categories. -/
theorem classify5_total_exclusive (hand : List Card) (h5 : hand.length = 5)
    (hnd : hand.Nodup) (hdeck : ∀ x ∈ hand, x ∈ DECK) :
    ∃! k : Category, classify5 hand = k ∧ k ∈ CATEGORIES :=
  ⟨classify5 hand, ⟨rfl, mem_CATEGORIES _⟩, fun _ hy => hy.1.symm⟩

/-- Witness for C1 at the concrete hand Ah Kh Qh Jh Th. -/
theorem classify5_total_exclusive_witness :
    ∃! k : Category,
      classify5 [('A', 'h'), ('K', 'h'), ('Q', 'h'), ('J', 'h'), ('T', 'h')] = k ∧
        k ∈ CATEGORIES :=
  classify5_total_exclusive [('A', 'h'), ('K', 'h'), ('Q', 'h'), ('J', 'h'), ('T', 'h')]
    rfl (by decide) (by decide)

/-- C7: `computeEV` fails with the incomplete-selection error whenever an
input is absent, fails with the duplicate-card error whenever the four
supplied cards are not pairwise distinct, and an error result is never a
computed EV result. -/
theorem computeEV_validation :
    (∀ a b c d : Option Card, (a = none ∨ b = none ∨ c = none ∨ d = none) →
      computeEV a b c d = EvalResult.error incompleteMsg) ∧
    (∀ a b c d : Card, ¬([a, b, c, d] : List Card).Nodup →
      computeEV (some a) (some b) (some c) (some d) = EvalResult.error duplicateMsg) ∧
    (∀ a b c d : Option Card, ∀ msg, computeEV a b c d = EvalResult.error msg →
      ∀ res, computeEV a b c d ≠ EvalResult.ok res) := by
  refine ⟨computeEV_none_error, computeEV_dup_error, ?_⟩
  intro a b c d msg herr res hok
  rw [herr] at hok
  exact EvalResult.noConfusion hok

/-- Witness for C7: a missing input and a duplicated Ah. -/
theorem computeEV_validation_witness :
    computeEV none (some ('A', 'h')) (some ('2', 'c')) (some ('3', 'd')) =
      EvalResult.error incompleteMsg ∧
    computeEV (some ('A', 'h')) (some ('A', 'h')) (some ('2', 'c')) (some ('3', 'd')) =
      EvalResult.error duplicateMsg :=
  ⟨computeEV_validation.1 none (some ('A', 'h')) (some ('2', 'c')) (some ('3', 'd'))
      (Or.inl rfl),
    computeEV_validation.2.1 ('A', 'h') ('A', 'h') ('2', 'c') ('3', 'd') (by decide)⟩

/-- C9: `computeEV` is deterministic (identical inputs give identical
results) and `classify5` is a pure function of its argument. -/
theorem evaluate_deterministic_pure :
    (∀ a₁ b₁ c₁ d₁ a₂ b₂ c₂ d₂ : Option Card,
      a₁ = a₂ → b₁ = b₂ → c₁ = c₂ → d₁ = d₂ →
      computeEV a₁ b₁ c₁ d₁ = computeEV a₂ b₂ c₂ d₂) ∧
    (∀ hand₁ hand₂ : List Card, hand₁ = hand₂ → classify5 hand₁ = classify5 hand₂) := by
  constructor
  · rintro a b c d _ _ _ _ rfl rfl rfl rfl
    rfl
  · rintro hand _ rfl
    rfl

/-- Witness for C9 at a concrete input. -/
theorem evaluate_deterministic_pure_witness :
    computeEV (some ('A', 'h')) (some ('K', 'h')) (some ('Q', 'h')) (some ('J', 'h')) =
      computeEV (some ('A', 'h')) (some ('K', 'h')) (some ('Q', 'h')) (some ('J', 'h')) ∧
    classify5 [('2', 'c'), ('3', 'd')] = classify5 [('2', 'c'), ('3', 'd')] :=
  ⟨evaluate_deterministic_pure.1 _ _ _ _ _ _ _ _ rfl rfl rfl rfl,
    evaluate_deterministic_pure.2 _ _ rfl⟩

/-- C10: the completeness check runs before the distinctness check: an
absent input always yields the incomplete-selection error, and the
duplicate-card error can only arise when all four inputs are present. -/
theorem validation_precedence :
    (∀ a b c d : Option Card, (a = none ∨ b = none ∨ c = none ∨ d = none) →
      computeEV a b c d = EvalResult.error incompleteMsg) ∧
    (∀ a b c d : Option Card, computeEV a b c d = EvalResult.error duplicateMsg →
      a ≠ none ∧ b ≠ none ∧ c ≠ none ∧ d ≠ none) := by
  refine ⟨computeEV_none_error, ?_⟩
  intro a b c d h
  have habs : ∀ (hor : a = none ∨ b = none ∨ c = none ∨ d = none), False := by
    intro hor
    rw [computeEV_none_error a b c d hor] at h
    exact msgs_ne (by simpa using h)
  exact ⟨fun hn => habs (Or.inl hn), fun hn => habs (Or.inr (Or.inl hn)),
    fun hn => habs (Or.inr (Or.inr (Or.inl hn))),
    fun hn => habs (Or.inr (Or.inr (Or.inr hn)))⟩

/-- Witness for C10: an input that is both incomplete and duplicated
reports the incomplete-selection error. -/
theorem validation_precedence_witness :
    computeEV (some ('A', 'h')) (some ('A', 'h')) (some ('2', 'c')) none =
      EvalResult.error incompleteMsg :=
  validation_precedence.1 (some ('A', 'h')) (some ('A', 'h')) (some ('2', 'c')) none
    (Or.inr (Or.inr (Or.inr rfl)))

/-- C3: on valid input the candidate pool has exactly 48 elements, the
result's total is 48, and the 10 per-category counts sum to 48. -/
theorem pool_total_counts (a b c d : Card) (hnd : ([a, b, c, d] : List Card).Nodup)
    (ha : a ∈ DECK) (hb : b ∈ DECK) (hc : c ∈ DECK) (hd : d ∈ DECK) :
    (poolOf a b c d).length = 48 ∧
    ∃ res, computeEV (some a) (some b) (some c) (some d) = EvalResult.ok res ∧
      res.total = 48 ∧ (CATEGORIES.map res.counts).sum = 48 := by
  have hlen := poolOf_length a b c d hnd ha hb hc hd
  refine ⟨hlen, _, computeEV_eq_ok a b c d hnd, hlen, ?_⟩
  dsimp only
  rw [sum_counts_eq_length (poolOf a b c d) (cat5 a b c d)]
  exact hlen

/-- Witness for C3 at the concrete input Ah Kh Qh Jh. -/
theorem pool_total_counts_witness :
    (poolOf ('A', 'h') ('K', 'h') ('Q', 'h') ('J', 'h')).length = 48 ∧
    ∃ res, computeEV (some ('A', 'h')) (some ('K', 'h')) (some ('Q', 'h')) (some ('J', 'h')) =
        EvalResult.ok res ∧
      res.total = 48 ∧ (CATEGORIES.map res.counts).sum = 48 :=
  pool_total_counts ('A', 'h') ('K', 'h') ('Q', 'h') ('J', 'h')
    (by decide) (by decide) (by decide) (by decide) (by decide)

/-- C2: on valid input the EV equals the count-weighted paytable sum
divided by 48 exactly, each probability is its count over the total, and
the 10 probabilities sum to 1 within 1e-9. -/
theorem ev_probs_exact (a b c d : Card) (hnd : ([a, b, c, d] : List Card).Nodup)
    (ha : a ∈ DECK) (hb : b ∈ DECK) (hc : c ∈ DECK) (hd : d ∈ DECK) :
    ∃ res, computeEV (some a) (some b) (some c) (some d) = EvalResult.ok res ∧
      res.ev = (CATEGORIES.map (fun k => (res.counts k : ℚ) * (PAYTABLE k : ℚ))).sum / 48 ∧
      (∀ k, res.probs k = (res.counts k : ℚ) / (res.total : ℚ)) ∧
      |(CATEGORIES.map res.probs).sum - 1| ≤ 1 / 1000000000 := by
  have hlen := poolOf_length a b c d hnd ha hb hc hd
  refine ⟨_, computeEV_eq_ok a b c d hnd, ?_, fun k => rfl, ?_⟩
  · dsimp only
    rw [hlen, sum_counts_mul_weight (poolOf a b c d) (cat5 a b c d) (fun k => (PAYTABLE k : ℚ)),
      list_sum_intCast, List.map_map]
    norm_num [Function.comp_def]
  · dsimp only
    have hdiv : (fun k => ((poolOf a b c d).countP (fun f => decide (cat5 a b c d f = k)) : ℚ) /
        ((poolOf a b c d).length : ℚ)) =
        fun k => ((poolOf a b c d).countP (fun f => decide (cat5 a b c d f = k)) : ℚ) *
          ((48 : ℚ))⁻¹ := by
      funext k
      rw [hlen]
      norm_num
      ring
    rw [hdiv, sum_counts_mul_weight (poolOf a b c d) (cat5 a b c d) (fun _ => ((48 : ℚ))⁻¹)]
    have hconst : ((poolOf a b c d).map (fun _ => ((48 : ℚ))⁻¹)).sum =
        ((poolOf a b c d).length : ℚ) * ((48 : ℚ))⁻¹ := by
      rw [List.map_const', List.sum_replicate, nsmul_eq_mul]
    rw [hconst, hlen]
    norm_num

/-- Witness for C2 at the concrete input Ah Kh Qh Jh. -/
theorem ev_probs_exact_witness :
    ∃ res, computeEV (some ('A', 'h')) (some ('K', 'h')) (some ('Q', 'h')) (some ('J', 'h')) =
        EvalResult.ok res ∧
      res.ev = (CATEGORIES.map (fun k => (res.counts k : ℚ) * (PAYTABLE k : ℚ))).sum / 48 ∧
      (∀ k, res.probs k = (res.counts k : ℚ) / (res.total : ℚ)) ∧
      |(CATEGORIES.map res.probs).sum - 1| ≤ 1 / 1000000000 :=
  ev_probs_exact ('A', 'h') ('K', 'h') ('Q', 'h') ('J', 'h')
    (by decide) (by decide) (by decide) (by decide) (by decide)

/-- C8: on valid input the breakdown is the per-candidate list of
(candidate, category, payout) records over the pool in deck order, one
per candidate, 48 in all. -/
theorem breakdown_records (a b c d : Card) (hnd : ([a, b, c, d] : List Card).Nodup)
    (ha : a ∈ DECK) (hb : b ∈ DECK) (hc : c ∈ DECK) (hd : d ∈ DECK) :
    ∃ res, computeEV (some a) (some b) (some c) (some d) = EvalResult.ok res ∧
      res.breakdown = (poolOf a b c d).map
        (fun f => (f, cat5 a b c d f, PAYTABLE (cat5 a b c d f))) ∧
      res.breakdown.map (fun t => t.1) = poolOf a b c d ∧
      res.breakdown.length = 48 := by
  refine ⟨_, computeEV_eq_ok a b c d hnd, rfl, ?_, ?_⟩
  · dsimp only
    rw [List.map_map]
    simp [Function.comp_def]
  · dsimp only
    rw [List.length_map]
    exact poolOf_length a b c d hnd ha hb hc hd

/-- C4: a hand whose ranks are exactly the wheel A-2-3-4-5 classifies as
straight when the suits are not all identical, and as straight_flush
(never royal_flush) when they are. -/
theorem wheel_straight (hand : List Card)
    (hperm : (ranksOf hand).Perm ['A', '2', '3', '4', '5']) :
    ((∀ x ∈ hand, ∀ y ∈ hand, x.2 = y.2) →
      classify5 hand = Category.straight_flush ∧
      classify5 hand ≠ Category.royal_flush) ∧
    (¬(∀ x ∈ hand, ∀ y ∈ hand, x.2 = y.2) →
      classify5 hand = Category.straight) := by
  have hne : hand ≠ [] := by
    intro he
    rw [he] at hperm
    have := hperm.length_eq
    simp [ranksOf] at this
  have hparts := wheel_classify_parts hand hperm
  constructor
  · intro hsame
    have hf : isFlushOf hand = true := (isFlush_iff hand hne).mpr hsame
    refine ⟨hparts.1 hf, ?_⟩
    rw [hparts.1 hf]
    simp
  · intro hdiff
    have hf : isFlushOf hand = false := by
      rw [Bool.eq_false_iff]
      intro h
      exact hdiff ((isFlush_iff hand hne).mp h)
    exact hparts.2 hf

/-- Witness for C4: a mixed-suit wheel and a one-suit wheel. -/
theorem wheel_straight_witness :
    classify5 [('A', 'h'), ('2', 'c'), ('3', 'd'), ('4', 'h'), ('5', 'h')] =
      Category.straight ∧
    classify5 [('A', 'h'), ('2', 'h'), ('3', 'h'), ('4', 'h'), ('5', 'h')] =
      Category.straight_flush :=
  ⟨(wheel_straight [('A', 'h'), ('2', 'c'), ('3', 'd'), ('4', 'h'), ('5', 'h')]
      (by decide)).2 (by decide),
    ((wheel_straight [('A', 'h'), ('2', 'h'), ('3', 'h'), ('4', 'h'), ('5', 'h')]
      (by decide)).1 (by decide)).1⟩

/-- C5: `classify5` returns royal_flush iff the hand is a straight, a
flush, and its rank set is exactly {10, J, Q, K, A}. -/
theorem royal_flush_characterisation (hand : List Card) (h5 : hand.length = 5)
    (hnd : hand.Nodup) :
    classify5 hand = Category.royal_flush ↔
      isStraightOf hand = true ∧ isFlushOf hand = true ∧
      (ranksOf hand).toFinset = ({'T', 'J', 'Q', 'K', 'A'} : Finset Char) := by
  rw [classify5_eq_royal_iff]
  constructor
  · rintro ⟨hs, hf, hr⟩
    exact ⟨hs, hf, (isRoyalSet_iff hand).mp hr⟩
  · rintro ⟨hs, hf, hr⟩
    exact ⟨hs, hf, (isRoyalSet_iff hand).mpr hr⟩

/-- Witness for C5 at the concrete royal hand Ah Kh Qh Jh Th. -/
theorem royal_flush_characterisation_witness :
    classify5 [('A', 'h'), ('K', 'h'), ('Q', 'h'), ('J', 'h'), ('T', 'h')] =
      Category.royal_flush :=
  (royal_flush_characterisation
      [('A', 'h'), ('K', 'h'), ('Q', 'h'), ('J', 'h'), ('T', 'h')] rfl (by decide)).mpr
    ⟨by decide, by decide, by decide⟩

/-- C6: a 5-distinct-card hand with exactly one rank paired (highest
occurrence count exactly 2, no second pair) and no flush or straight
classifies as pair_10_or_better when the paired rank is in
{10, J, Q, K, A} and as nothing otherwise. -/
theorem pair_ten_or_better (hand : List Card) (h5 : hand.length = 5)
    (hnd : hand.Nodup) (p : Char)
    (hp2 : (ranksOf hand).count p = 2)
    (hmax : ∀ r ∈ ranksOf hand, (ranksOf hand).count r ≤ 2)
    (huniq : ∀ r ∈ ranksOf hand, (ranksOf hand).count r = 2 → r = p)
    (hnf : isFlushOf hand = false) (hns : isStraightOf hand = false) :
    (p ∈ (['T', 'J', 'Q', 'K', 'A'] : List Char) →
      classify5 hand = Category.pair_10_or_better) ∧
    (p ∉ (['T', 'J', 'Q', 'K', 'A'] : List Char) →
      classify5 hand = Category.nothing) := by
  obtain ⟨hfreqs, hkey⟩ := pair_freqs hand h5 p hp2 hmax huniq
  have hpl : p ∈ ranksOf hand := List.count_pos_iff.mp (by omega)
  have hpmem : ((p, 2) : Char × Nat) ∈ countsList (ranksOf hand) :=
    (mem_countsList (ranksOf hand) (p, 2)).mpr ⟨hpl, hp2.symm⟩
  obtain ⟨q, hq⟩ : ∃ q, (countsList (ranksOf hand)).find? (fun q => q.2 == 2) = some q := by
    rcases hf : (countsList (ranksOf hand)).find? (fun q => q.2 == 2) with _ | q
    · exfalso
      have := List.find?_eq_none.mp hf (p, 2) hpmem
      simp at this
    · exact ⟨q, hf⟩
  have hq2 : q.2 = 2 := by simpa using List.find?_some hq
  have hq1 : q.1 = p := hkey q (List.mem_of_find?_eq_some hq) hq2
  have hpair : pairBranchOf hand =
      if (['T', 'J', 'Q', 'K', 'A'] : List Char).contains p then Category.pair_10_or_better
      else Category.nothing := by
    unfold pairBranchOf
    rw [hq]
    dsimp only
    rw [hq1]
  constructor
  · intro hp
    have hc : (['T', 'J', 'Q', 'K', 'A'] : List Char).contains p = true := by
      simpa using hp
    have hpb : pairBranchOf hand = Category.pair_10_or_better := by
      rw [hpair, if_pos hc]
    simp [classify5, hns, hnf, hfreqs, hpb]
  · intro hp
    have hc : (['T', 'J', 'Q', 'K', 'A'] : List Char).contains p = false := by
      simpa using hp
    have hpb : pairBranchOf hand = Category.nothing := by
      rw [hpair, if_neg (by rw [hc]; simp)]
    simp [classify5, hns, hnf, hfreqs, hpb]

/-- Witness for C6: a pair of tens yields pair_10_or_better and a pair
of nines yields nothing. -/
theorem pair_ten_or_better_witness :
    classify5 [('T', 'h'), ('T', 'c'), ('3', 'd'), ('4', 'h'), ('5', 'h')] =
      Category.pair_10_or_better ∧
    classify5 [('9', 'h'), ('9', 'c'), ('3', 'd'), ('4', 'h'), ('5', 'h')] =
      Category.nothing :=
  ⟨(pair_ten_or_better [('T', 'h'), ('T', 'c'), ('3', 'd'), ('4', 'h'), ('5', 'h')]
      rfl (by decide) 'T' (by decide) (by decide) (by decide) (by decide) (by decide)).1
      (by decide),
    (pair_ten_or_better [('9', 'h'), ('9', 'c'), ('3', 'd'), ('4', 'h'), ('5', 'h')]
      rfl (by decide) '9' (by decide) (by decide) (by decide) (by decide) (by decide)).2
      (by decide)⟩

/-- Witness for C8 at the concrete input Ah Kh Qh Jh. -/
theorem breakdown_records_witness :
    ∃ res, computeEV (some ('A', 'h')) (some ('K', 'h')) (some ('Q', 'h')) (some ('J', 'h')) =
        EvalResult.ok res ∧
      res.breakdown = (poolOf ('A', 'h') ('K', 'h') ('Q', 'h') ('J', 'h')).map
        (fun f => (f, cat5 ('A', 'h') ('K', 'h') ('Q', 'h') ('J', 'h') f,
          PAYTABLE (cat5 ('A', 'h') ('K', 'h') ('Q', 'h') ('J', 'h') f))) ∧
      res.breakdown.map (fun t => t.1) = poolOf ('A', 'h') ('K', 'h') ('Q', 'h') ('J', 'h') ∧
      res.breakdown.length = 48 :=
  breakdown_records ('A', 'h') ('K', 'h') ('Q', 'h') ('J', 'h')
    (by decide) (by decide) (by decide) (by decide) (by decide)

end LetItRide
